import Mathlib

/-!
Verification development for the Ark Watchdog license server
(`license_server.py`).

The server is embedded shallowly:

* Python strings are `List Char`; `str.strip` / `str.lower` / slicing are
  modelled on character lists.  `str.lower` is modelled by the ASCII case
  mapping (the identifiers involved — hex fingerprints, license keys — are
  ASCII).  `str.strip` uses the Unicode whitespace code points that Python
  strips.
* The JSON key store is an association list from license-key strings to
  license records; `write_store` is modelled by returning the updated
  store (the file system is abstracted away, writes are atomic).
* Each HTTP handler becomes a pure function from configuration, store and
  request payload (plus the current time for `activate`) to a result
  (`Except` of the raised `HTTPException` or of the success body) paired
  with the store as it is on disk after the request.
* JWT signing is not modelled: the claim set of the token (machine, plan,
  expiry) is returned directly; the signature itself plays no role in any
  property considered here.
-/

deriving instance DecidableEq for Except

namespace ArkLicense

/-- Code points stripped by the Python function `str.strip()` (Unicode whitespace as
recognised by `str.isspace`). -/
def isPySpace (c : Char) : Bool :=
  (9 ≤ c.toNat && c.toNat ≤ 13) || c.toNat == 32 ||
  (28 ≤ c.toNat && c.toNat ≤ 31) || c.toNat == 133 || c.toNat == 160 ||
  c.toNat == 5760 || (8192 ≤ c.toNat && c.toNat ≤ 8202) ||
  c.toNat == 8232 || c.toNat == 8233 || c.toNat == 8239 ||
  c.toNat == 8287 || c.toNat == 12288

/-- Python `str.strip()`: drop leading and trailing whitespace. -/
def pyStrip (l : List Char) : List Char :=
  ((l.dropWhile isPySpace).reverse.dropWhile isPySpace).reverse

/-- Python `str.lower()`, restricted to the ASCII case mapping. -/
def pyLower (c : Char) : Char :=
  if 65 ≤ c.toNat ∧ c.toNat ≤ 90 then Char.ofNat (c.toNat + 32) else c

/-- Membership in `"0123456789abcdef"`, which is also the character class
of the regex `[0-9a-f]`. -/
def isHexLower (c : Char) : Bool :=
  (48 ≤ c.toNat && c.toNat ≤ 57) || (97 ≤ c.toNat && c.toNat ≤ 102)

/-- Machine strings and fingerprints (Python `str`). -/
abbrev Fp := List Char

/-- `_norm_machine` from `license_server.py`:

    m = (m or "").strip().lower()
    if re.fullmatch(r"[0-9a-f]{16,}", m):
        return m[:16]
    only_hex = "".join(ch for ch in m if ch in "0123456789abcdef")
    if len(only_hex) >= 16:
        return only_hex[:16]
    return m[:16]

`re.fullmatch(r"[0-9a-f]{16,}", m)` succeeds iff every character of `m`
is lowercase hex and `m` has at least 16 characters. -/
def normMachine (s : Fp) : Fp :=
  let m := (pyStrip s).map pyLower
  if m.all isHexLower ∧ 16 ≤ m.length then m.take 16
  else
    let onlyHex := m.filter isHexLower
    if 16 ≤ onlyHex.length then onlyHex.take 16
    else m.take 16

/-- `list(dict.fromkeys(l))`: de-duplicate keeping the first occurrence,
written with an accumulator of the keys already seen. -/
def dedupFirstAux {α : Type} [DecidableEq α] (seen : List α) : List α → List α
  | [] => []
  | x :: xs => if x ∈ seen then dedupFirstAux seen xs
               else x :: dedupFirstAux (x :: seen) xs

/-- `list(dict.fromkeys(l))`, de-duplication preserving first-seen order. -/
def dedupFirst {α : Type} [DecidableEq α] (l : List α) : List α :=
  dedupFirstAux [] l

/-- A license record in `valid_keys.json`.  The handlers read the fields
with `lic.get(...)` defaults; records written by the server always carry
all five fields, which is what the structure models. -/
structure License where
  active : Bool
  plan : String
  expires_unix : Int
  seats : Int
  machines : List Fp
deriving DecidableEq, Repr

/-- The key store: the JSON object in `LICENSE_KEYS_FILE`, an insertion
ordered mapping from license key to record. -/
abbrev Store := List (String × License)

/-- Python `store.get(key)`. -/
def storeGet : Store → String → Option License
  | [], _ => none
  | (k, v) :: rest, key => if k = key then some v else storeGet rest key

/-- Python `store[key] = lic`: replace in place, or append a new key. -/
def storeSet : Store → String → License → Store
  | [], key, lic => [(key, lic)]
  | (k, v) :: rest, key, lic =>
      if k = key then (key, lic) :: rest else (k, v) :: storeSet rest key lic

/-- Server configuration: `APP_ID`, `TOKEN_TTL`, `ADMIN_TOKEN` (the last
is `None` when the environment variable is unset). -/
structure Config where
  appId : String
  tokenTTL : Int
  adminToken : Option String
deriving DecidableEq

/-- Body of `POST /api/activate` (`ActivatePayload`); `machine` and
`fingerprint` are both optional, `version` is ignored by the handler. -/
structure ActivatePayload where
  key : String
  app : String
  machine : Option Fp
  fingerprint : Option Fp
deriving DecidableEq

/-- The `HTTPException`s `activate` can raise, by `detail` string. -/
inductive ActErr
  | appMismatch   -- 403 "app mismatch"
  | badMachineId  -- 422 "machine/fingerprint required"
  | invalidKey    -- 403 "invalid key"
  | inactive      -- 403 "inactive"
  | expired       -- 402 "expired"
  | seatLimit     -- 409 "seat limit reached"
deriving DecidableEq

/-- HTTP status code of each activation error. -/
def ActErr.status : ActErr → Nat
  | .appMismatch => 403
  | .badMachineId => 422
  | .invalidKey => 403
  | .inactive => 403
  | .expired => 402
  | .seatLimit => 409

/-- Success body of `activate`: the claim set of the minted token (the
signature itself is not modelled) together with the `expires` field of
the response. -/
structure ActOk where
  machine : Fp
  plan : String
  expires : Int
deriving DecidableEq

/-- `p.machine or p.fingerprint or ""`: first truthy value, where `None`
and the empty string are falsy. -/
def machineIn (p : ActivatePayload) : Fp :=
  if p.machine.getD [] ≠ [] then p.machine.getD []
  else if p.fingerprint.getD [] ≠ [] then p.fingerprint.getD []
  else []

/-- The `POST /api/activate` handler (`activate` in `license_server.py`),
as a function of the configuration, the store read from disk, the payload
and `now = int(time.time())`.  Returns the response and the store as on
disk afterwards (`write_store` happens only on the seat-binding branch). -/
def activate (cfg : Config) (store : Store) (p : ActivatePayload)
    (now : Int) : Except ActErr ActOk × Store :=
  if p.app ≠ cfg.appId then (.error .appMismatch, store)
  else
    let nmach := normMachine (machineIn p)
    if nmach = [] then (.error .badMachineId, store)
    else
      match storeGet store p.key with
      | none => (.error .invalidKey, store)
      | some lic =>
        if lic.active = false then (.error .inactive, store)
        else if lic.expires_unix ≤ now then (.error .expired, store)
        else
          let seats := lic.seats
          let machines := dedupFirst (lic.machines.map normMachine)
          let result : ActOk :=
            { machine := nmach, plan := lic.plan,
              expires := min (now + cfg.tokenTTL) lic.expires_unix }
          if nmach ∈ machines then (.ok result, store)
          else if seats ≤ (machines.length : Int) then
            (.error .seatLimit, store)
          else
            let lic' := { lic with machines := machines ++ [nmach] }
            (.ok result, storeSet store p.key lic')

/-- The `HTTPException`s the admin handlers can raise. -/
inductive AdminErr
  | forbidden  -- 403, from `_require_admin`
  | notFound   -- 404 "not found"
deriving DecidableEq

/-- `_require_admin`: fails when `ADMIN_TOKEN` is unset or empty
(`if not ADMIN_TOKEN`), or when the presented header differs from it. -/
def requireAdmin (cfg : Config) (tok : String) : Bool :=
  match cfg.adminToken with
  | none => false
  | some t => if t = "" then false else decide (tok = t)

/-- Body of `POST /admin/upsert` (`UpsertPayload`). -/
structure UpsertPayload where
  key : String
  active : Bool
  plan : String
  expires_unix : Int
  seats : Int
deriving DecidableEq

/-- The `POST /admin/upsert` handler: replaces the four scalar fields and
renormalizes (without de-duplicating) the existing `machines` list.
Returns the `machines` list of the response body and the store after the
request. -/
def admin_upsert (cfg : Config) (store : Store) (tok : String)
    (p : UpsertPayload) : Except AdminErr (List Fp) × Store :=
  if requireAdmin cfg tok = false then (.error .forbidden, store)
  else
    let oldMachines := match storeGet store p.key with
      | some l => l.machines
      | none => []
    let lic : License :=
      { active := p.active, plan := p.plan, expires_unix := p.expires_unix,
        seats := p.seats, machines := oldMachines.map normMachine }
    (.ok lic.machines, storeSet store p.key lic)

/-- The `POST /admin/remove_machine` handler: renormalizes the stored
list and drops every entry equal to the normalized target.  Returns the
`machines` list of the response body and the store after the request. -/
def admin_remove_machine (cfg : Config) (store : Store) (tok : String)
    (key : String) (machine : Fp) : Except AdminErr (List Fp) × Store :=
  if requireAdmin cfg tok = false then (.error .forbidden, store)
  else
    match storeGet store key with
    | none => (.error .notFound, store)
    | some lic =>
      let tgt := normMachine machine
      let ms := (lic.machines.map normMachine).filter (fun m => m ≠ tgt)
      let lic' := { lic with machines := ms }
      (.ok ms, storeSet store key lic')

/-! ### Abbreviations used in theorem statements -/

/-- The canonical fingerprint `nmach` an activation request binds. -/
def nmachOf (p : ActivatePayload) : Fp := normMachine (machineIn p)

/-- The repaired machine list the activation handler computes from a
record before seat binding. -/
def binderList (lic : License) : List Fp :=
  dedupFirst (lic.machines.map normMachine)

/-- The success body a given record yields at a given time. -/
def actResult (cfg : Config) (p : ActivatePayload) (lic : License)
    (now : Int) : ActOk :=
  { machine := nmachOf p, plan := lic.plan,
    expires := min (now + cfg.tokenTTL) lic.expires_unix }

/-- `len(machines) <= seats` for one record. -/
def licOK (l : License) : Bool := decide ((l.machines.length : Int) ≤ l.seats)

/-- The seat invariant over a whole store. -/
def invStoreB (s : Store) : Bool := s.all fun e => licOK e.2

/-! ### Character-level lemmas -/

theorem toNat_charOfNat_of_valid {n : Nat} (h : n.isValidChar) :
    (Char.ofNat n).toNat = n := by
  simp [Char.ofNat, h, Char.toNat, Char.ofNatAux, UInt32.toNat, UInt32.ofNatCore]

theorem toNat_pyLower_of_upper {c : Char}
    (h : 65 ≤ c.toNat ∧ c.toNat ≤ 90) : (pyLower c).toNat = c.toNat + 32 := by
  have hv : (c.toNat + 32).isValidChar := Or.inl (by omega)
  simp [pyLower, h, toNat_charOfNat_of_valid hv]

theorem pyLower_of_not_upper {c : Char}
    (h : ¬ (65 ≤ c.toNat ∧ c.toNat ≤ 90)) : pyLower c = c := by
  simp [pyLower, h]

theorem pyLower_idem (c : Char) : pyLower (pyLower c) = pyLower c := by
  by_cases h : 65 ≤ c.toNat ∧ c.toNat ≤ 90
  · apply pyLower_of_not_upper
    rw [toNat_pyLower_of_upper h]
    omega
  · rw [pyLower_of_not_upper h]
    exact pyLower_of_not_upper h

theorem isPySpace_iff (c : Char) : isPySpace c = true ↔
    (9 ≤ c.toNat ∧ c.toNat ≤ 13) ∨ c.toNat = 32 ∨
    (28 ≤ c.toNat ∧ c.toNat ≤ 31) ∨ c.toNat = 133 ∨ c.toNat = 160 ∨
    c.toNat = 5760 ∨ (8192 ≤ c.toNat ∧ c.toNat ≤ 8202) ∨
    c.toNat = 8232 ∨ c.toNat = 8233 ∨ c.toNat = 8239 ∨
    c.toNat = 8287 ∨ c.toNat = 12288 := by
  simp only [isPySpace, Bool.or_eq_true, Bool.and_eq_true, decide_eq_true_eq,
    beq_iff_eq, Nat.beq_eq_true_eq]
  tauto

theorem isHexLower_iff (c : Char) : isHexLower c = true ↔
    (48 ≤ c.toNat ∧ c.toNat ≤ 57) ∨ (97 ≤ c.toNat ∧ c.toNat ≤ 102) := by
  simp only [isHexLower, Bool.or_eq_true, Bool.and_eq_true, decide_eq_true_eq]

theorem not_isPySpace_of_isHexLower {c : Char} (h : isHexLower c = true) :
    isPySpace c = false := by
  rw [isHexLower_iff] at h
  rw [Bool.eq_false_iff]
  intro hs
  rw [isPySpace_iff] at hs
  omega

theorem pyLower_of_isHexLower {c : Char} (h : isHexLower c = true) :
    pyLower c = c := by
  rw [isHexLower_iff] at h
  exact pyLower_of_not_upper (by omega)

/-! ### `pyStrip` lemmas -/

theorem pyStrip_sublist (l : List Char) : (pyStrip l).Sublist l := by
  unfold pyStrip
  have h1 : (((l.dropWhile isPySpace).reverse.dropWhile isPySpace).reverse).Sublist
      ((l.dropWhile isPySpace).reverse.reverse) :=
    List.Sublist.reverse (List.dropWhile_sublist _)
  rw [List.reverse_reverse] at h1
  exact h1.trans (List.dropWhile_sublist _)

theorem mem_of_mem_pyStrip {c : Char} {l : List Char}
    (h : c ∈ pyStrip l) : c ∈ l :=
  List.Sublist.mem h (pyStrip_sublist l)

theorem dropWhile_eq_self_of_all {p : Char → Bool} {l : List Char}
    (h : ∀ c ∈ l, p c = false) : l.dropWhile p = l := by
  cases l with
  | nil => rfl
  | cons a l =>
    rw [List.dropWhile_cons, if_neg]
    simp [h a (List.mem_cons_self a l)]

theorem pyStrip_eq_self_of_no_space {l : List Char}
    (h : ∀ c ∈ l, isPySpace c = false) : pyStrip l = l := by
  unfold pyStrip
  rw [dropWhile_eq_self_of_all h, dropWhile_eq_self_of_all, List.reverse_reverse]
  intro c hc
  exact h c (List.mem_reverse.mp hc)

/-! ### `dedupFirst` lemmas -/

theorem mem_dedupFirstAux {α : Type} [DecidableEq α] {a : α}
    (seen : List α) (l : List α) :
    a ∈ dedupFirstAux seen l ↔ a ∈ l ∧ a ∉ seen := by
  induction l generalizing seen with
  | nil => simp [dedupFirstAux]
  | cons x xs ih =>
    by_cases hx : x ∈ seen
    · rw [dedupFirstAux, if_pos hx, ih]
      constructor
      · intro h
        exact ⟨List.mem_cons_of_mem x h.1, h.2⟩
      · rintro ⟨h1, h2⟩
        rcases List.mem_cons.mp h1 with rfl | h1
        · exact absurd hx h2
        · exact ⟨h1, h2⟩
    · rw [dedupFirstAux, if_neg hx]
      by_cases hax : a = x
      · subst hax
        simp [hx]
      · simp only [List.mem_cons, hax, false_or]
        rw [ih]
        simp [hax]

theorem mem_dedupFirst {α : Type} [DecidableEq α] {a : α} (l : List α) :
    a ∈ dedupFirst l ↔ a ∈ l := by
  rw [dedupFirst, mem_dedupFirstAux]
  simp

/-! ### Store lemmas -/

theorem storeGet_storeSet_self (s : Store) (k : String) (v : License) :
    storeGet (storeSet s k v) k = some v := by
  induction s with
  | nil => simp [storeSet, storeGet]
  | cons e rest ih =>
    obtain ⟨ek, ev⟩ := e
    by_cases h : ek = k
    · simp [storeSet, storeGet, h]
    · simp [storeSet, storeGet, h, ih]

theorem storeGet_storeSet_ne (s : Store) {k k' : String} (v : License)
    (h : k' ≠ k) : storeGet (storeSet s k v) k' = storeGet s k' := by
  have hk : ¬ k = k' := fun he => h he.symm
  induction s with
  | nil => simp [storeSet, storeGet, hk]
  | cons e rest ih =>
    obtain ⟨ek, ev⟩ := e
    by_cases he : ek = k
    · subst he
      simp [storeSet, storeGet, hk]
    · by_cases he' : ek = k'
      · simp [storeSet, storeGet, he, he', h]
      · simp [storeSet, storeGet, he, he', ih]

theorem invStoreB_storeSet {s : Store} {k : String} {v : License}
    (hs : invStoreB s = true) (hv : licOK v = true) :
    invStoreB (storeSet s k v) = true := by
  induction s with
  | nil => simp [storeSet, invStoreB, hv]
  | cons e rest ih =>
    obtain ⟨ek, ev⟩ := e
    simp only [invStoreB, List.all_cons, Bool.and_eq_true] at hs
    by_cases h : ek = k
    · simp [storeSet, invStoreB, h, hv, hs.2]
    · have hr := ih hs.2
      simp only [invStoreB] at hr
      simp [storeSet, invStoreB, h, hs.1, hr]

theorem licOK_of_invStoreB {s : Store} {k : String} {lic : License}
    (hs : invStoreB s = true) (h : storeGet s k = some lic) :
    licOK lic = true := by
  induction s with
  | nil => simp [storeGet] at h
  | cons e rest ih =>
    obtain ⟨ek, ev⟩ := e
    simp only [invStoreB, List.all_cons, Bool.and_eq_true] at hs
    by_cases he : ek = k
    · rw [storeGet, if_pos he] at h
      cases h
      exact hs.1
    · rw [storeGet, if_neg he] at h
      exact ih hs.2 h

/-! ### Branch lemmas for `activate`

One lemma per exit point of the handler, with the conditions of all
earlier checks as hypotheses; together they cover every run of
`activate`. -/

theorem activate_app_mismatch {cfg : Config} {s : Store}
    {p : ActivatePayload} {now : Int} (h : p.app ≠ cfg.appId) :
    activate cfg s p now = (.error .appMismatch, s) := by
  simp [activate, h]

theorem activate_bad_machine {cfg : Config} {s : Store}
    {p : ActivatePayload} {now : Int} (h1 : p.app = cfg.appId)
    (h2 : nmachOf p = []) :
    activate cfg s p now = (.error .badMachineId, s) := by
  rw [nmachOf] at h2
  simp [activate, h1, h2]

theorem activate_invalid_key {cfg : Config} {s : Store}
    {p : ActivatePayload} {now : Int} (h1 : p.app = cfg.appId)
    (h2 : nmachOf p ≠ []) (h3 : storeGet s p.key = none) :
    activate cfg s p now = (.error .invalidKey, s) := by
  rw [nmachOf] at h2
  simp [activate, h1, h2, h3]

theorem activate_inactive {cfg : Config} {s : Store}
    {p : ActivatePayload} {now : Int} {lic : License}
    (h1 : p.app = cfg.appId) (h2 : nmachOf p ≠ [])
    (h3 : storeGet s p.key = some lic) (h4 : lic.active = false) :
    activate cfg s p now = (.error .inactive, s) := by
  rw [nmachOf] at h2
  simp [activate, h1, h2, h3, h4]

theorem activate_expired {cfg : Config} {s : Store}
    {p : ActivatePayload} {now : Int} {lic : License}
    (h1 : p.app = cfg.appId) (h2 : nmachOf p ≠ [])
    (h3 : storeGet s p.key = some lic) (h4 : lic.active = true)
    (h5 : lic.expires_unix ≤ now) :
    activate cfg s p now = (.error .expired, s) := by
  rw [nmachOf] at h2
  simp [activate, h1, h2, h3, h4, h5]

theorem activate_already_bound {cfg : Config} {s : Store}
    {p : ActivatePayload} {now : Int} {lic : License}
    (h1 : p.app = cfg.appId) (h2 : nmachOf p ≠ [])
    (h3 : storeGet s p.key = some lic) (h4 : lic.active = true)
    (h5 : now < lic.expires_unix) (h6 : nmachOf p ∈ binderList lic) :
    activate cfg s p now = (.ok (actResult cfg p lic now), s) := by
  rw [nmachOf] at h2 h6
  rw [binderList] at h6
  simp [activate, h1, h2, h3, h4, not_le.mpr h5, h6, actResult, nmachOf]

theorem activate_seat_limit {cfg : Config} {s : Store}
    {p : ActivatePayload} {now : Int} {lic : License}
    (h1 : p.app = cfg.appId) (h2 : nmachOf p ≠ [])
    (h3 : storeGet s p.key = some lic) (h4 : lic.active = true)
    (h5 : now < lic.expires_unix) (h6 : nmachOf p ∉ binderList lic)
    (h7 : lic.seats ≤ ((binderList lic).length : Int)) :
    activate cfg s p now = (.error .seatLimit, s) := by
  rw [nmachOf] at h2 h6
  rw [binderList] at h6 h7
  simp [activate, h1, h2, h3, h4, not_le.mpr h5, h6, h7]

theorem activate_append {cfg : Config} {s : Store}
    {p : ActivatePayload} {now : Int} {lic : License}
    (h1 : p.app = cfg.appId) (h2 : nmachOf p ≠ [])
    (h3 : storeGet s p.key = some lic) (h4 : lic.active = true)
    (h5 : now < lic.expires_unix) (h6 : nmachOf p ∉ binderList lic)
    (h7 : ((binderList lic).length : Int) < lic.seats) :
    activate cfg s p now = (.ok (actResult cfg p lic now),
      storeSet s p.key
        { lic with machines := binderList lic ++ [nmachOf p] }) := by
  rw [nmachOf] at h2 h6
  rw [binderList] at h6 h7
  simp [activate, h1, h2, h3, h4, not_le.mpr h5, h6, not_le.mpr h7,
    actResult, nmachOf, binderList]

/-- Complete case analysis of one run of `activate`: either it fails and
returns the store untouched, or it succeeds on an existing, active,
unexpired record, either because the machine is already bound (store
untouched) or by appending it to a record with a free seat. -/
theorem activate_cases (cfg : Config) (s : Store) (p : ActivatePayload)
    (now : Int) :
    (∃ e, activate cfg s p now = (.error e, s)) ∨
    (∃ lic, storeGet s p.key = some lic ∧ lic.active = true ∧
      now < lic.expires_unix ∧ p.app = cfg.appId ∧ nmachOf p ≠ [] ∧
      ((nmachOf p ∈ binderList lic ∧
        activate cfg s p now = (.ok (actResult cfg p lic now), s)) ∨
       (nmachOf p ∉ binderList lic ∧
        ((binderList lic).length : Int) < lic.seats ∧
        activate cfg s p now = (.ok (actResult cfg p lic now),
          storeSet s p.key
            { lic with machines := binderList lic ++ [nmachOf p] })))) := by
  by_cases h1 : p.app = cfg.appId
  · by_cases h2 : nmachOf p = []
    · exact Or.inl ⟨_, activate_bad_machine h1 h2⟩
    · cases h3 : storeGet s p.key with
      | none => exact Or.inl ⟨_, activate_invalid_key h1 h2 h3⟩
      | some lic =>
        cases h4 : lic.active with
        | false => exact Or.inl ⟨_, activate_inactive h1 h2 h3 h4⟩
        | true =>
          by_cases h5 : lic.expires_unix ≤ now
          · exact Or.inl ⟨_, activate_expired h1 h2 h3 h4 h5⟩
          · have h5' : now < lic.expires_unix := not_le.mp h5
            by_cases h6 : nmachOf p ∈ binderList lic
            · exact Or.inr ⟨lic, rfl, h4, h5', h1, h2,
                Or.inl ⟨h6, activate_already_bound h1 h2 h3 h4 h5' h6⟩⟩
            · by_cases h7 : lic.seats ≤ ((binderList lic).length : Int)
              · exact Or.inl ⟨_,
                  activate_seat_limit h1 h2 h3 h4 h5' h6 h7⟩
              · have h7' := not_le.mp h7
                exact Or.inr ⟨lic, rfl, h4, h5', h1, h2,
                  Or.inr ⟨h6, h7',
                    activate_append h1 h2 h3 h4 h5' h6 h7'⟩⟩
  · exact Or.inl ⟨_, activate_app_mismatch h1⟩

/-- Every result of the normalizer fits in 16 characters. -/
theorem normMachine_length_le (x : Fp) : (normMachine x).length ≤ 16 := by
  unfold normMachine
  dsimp only
  split_ifs <;> exact List.length_take_le 16 _

/-- Writing back the record that is already stored changes nothing. -/
theorem storeSet_eq_self {s : Store} {k : String} {v : License}
    (h : storeGet s k = some v) : storeSet s k v = s := by
  induction s with
  | nil => simp [storeGet] at h
  | cons e rest ih =>
    obtain ⟨ek, ev⟩ := e
    by_cases he : ek = k
    · rw [storeGet, if_pos he] at h
      cases h
      subst he
      simp [storeSet]
    · rw [storeGet, if_neg he] at h
      simp [storeSet, he, ih h]

/-! ### Concrete inputs shared by the witnesses and counterexamples -/

/-- Configuration with the default application id and TTL and a
configured admin token. -/
def wCfg : Config :=
  { appId := ("ark-watchdog"), tokenTTL := 86400, adminToken := some ("adm") }

/-- A canonical 16-hex fingerprint. -/
def fpHex : Fp := ("deadbeefdeadbeef").toList

/-- A second, distinct canonical fingerprint. -/
def fpHex2 : Fp := ("cafebabecafebabe").toList

/-- An uppercase variant of a fingerprint, canonical only after
normalization. -/
def fpUpper : Fp := ("AAAABBBBCCCCDDDD").toList

/-- The lowercase canonical form of `fpUpper`. -/
def fpLower : Fp := ("aaaabbbbccccdddd").toList

/-- A machine string whose normalized form ends in whitespace:
`"a"` followed by 15 spaces and a `"b"`. -/
def fpPatho : Fp := 'a' :: (List.replicate 15 ' ' ++ ['b'])

/-- An active license, expiring at time 10, with one seat and no bound
machines. -/
def wLic : License :=
  { active := true, plan := ("monthly"), expires_unix := 10, seats := 1,
    machines := [] }

/-- A store holding `wLic` under key `"K"`. -/
def wStore : Store := [(("K"), wLic)]

/-- Activation request for the key held in `wStore` from machine `fpHex`. -/
def wPay : ActivatePayload :=
  { key := ("K"), app := ("ark-watchdog"), machine := some fpHex,
    fingerprint := none }

/-! ### Claim C6 -/

/-- Claim C6: for every successful activation at time `now` on a license
with expiry `expires_unix` and configured TTL, the expiry of the issued token
equals `min (now + TTL) expires_unix`; in particular it never exceeds the
own expiry of the license. -/
theorem C6_token_expiry_min (cfg : Config) (s : Store) (p : ActivatePayload)
    (now : Int) (lic : License) (r : ActOk)
    (hget : storeGet s p.key = some lic)
    (hok : (activate cfg s p now).1 = .ok r) :
    r.expires = min (now + cfg.tokenTTL) lic.expires_unix ∧
    r.expires ≤ lic.expires_unix := by
  rcases activate_cases cfg s p now with ⟨e, he⟩ | ⟨lic', hget', _, _, _, _, hbr⟩
  · rw [he] at hok
    exact absurd hok (by simp)
  · rw [hget'] at hget
    cases hget
    rcases hbr with ⟨_, he⟩ | ⟨_, _, he⟩ <;>
    · rw [he] at hok
      simp only [Except.ok.injEq] at hok
      subst hok
      exact ⟨rfl, min_le_right _ _⟩

/-- Witness for C6 at a concrete input (TTL 86400, license expiring at
10, activation at time 0: the token expires with the license, at 10). -/
theorem C6_token_expiry_min_witness :
    (activate wCfg wStore wPay 0).1 =
      .ok { machine := fpHex, plan := ("monthly"), expires := 10 } ∧
    ActOk.expires { machine := fpHex, plan := ("monthly"), expires := 10 } =
      min ((0 : Int) + wCfg.tokenTTL) wLic.expires_unix ∧
    ActOk.expires { machine := fpHex, plan := ("monthly"), expires := 10 } ≤
      wLic.expires_unix :=
  ⟨by decide,
   C6_token_expiry_min wCfg wStore wPay 0 wLic _ (by decide) (by decide)⟩

/-! ### Claim C8 -/

/-- Claim C8: whenever activation fails with any error — in particular
`appMismatch` when the app field of the request differs from the configured id —
the store after the request equals the store before it. -/
theorem C8_error_no_mutation (cfg : Config) (s : Store) (p : ActivatePayload)
    (now : Int) (e : ActErr)
    (h : (activate cfg s p now).1 = .error e) :
    (activate cfg s p now).2 = s := by
  rcases activate_cases cfg s p now with ⟨e', he⟩ | ⟨lic, _, _, _, _, _, hbr⟩
  · rw [he]
  · rcases hbr with ⟨_, he⟩ | ⟨_, _, he⟩ <;> rw [he] at h <;> simp at h

/-- Witness for C8: a request whose `app` field is wrong fails with
`appMismatch` and leaves the concrete store untouched. -/
theorem C8_error_no_mutation_witness :
    (activate wCfg wStore
        { key := ("K"), app := ("other-app"), machine := some fpHex,
          fingerprint := none } 0).1 = .error .appMismatch ∧
    (activate wCfg wStore
        { key := ("K"), app := ("other-app"), machine := some fpHex,
          fingerprint := none } 0).2 = wStore :=
  ⟨by decide,
   C8_error_no_mutation wCfg wStore
     { key := ("K"), app := ("other-app"), machine := some fpHex,
       fingerprint := none } 0 .appMismatch (by decide)⟩

/-! ### Claim C10 -/

/-- Claim C10: the normalizer always returns at most 16 characters, so
every machines list written by admin upsert or admin remove, and every
record the activation handler writes, contains only entries of length at
most 16. -/
theorem C10_fingerprint_length :
    (∀ x : Fp, (normMachine x).length ≤ 16) ∧
    (∀ (cfg : Config) (s : Store) (tok : String) (p : UpsertPayload)
       (ms : List Fp), (admin_upsert cfg s tok p).1 = .ok ms →
       ∀ m ∈ ms, m.length ≤ 16) ∧
    (∀ (cfg : Config) (s : Store) (tok key : String) (mach : Fp)
       (ms : List Fp), (admin_remove_machine cfg s tok key mach).1 = .ok ms →
       ∀ m ∈ ms, m.length ≤ 16) ∧
    (∀ (cfg : Config) (s : Store) (p : ActivatePayload) (now : Int)
       (k : String) (lic' : License),
       storeGet (activate cfg s p now).2 k = some lic' →
       storeGet s k = some lic' ∨ ∀ m ∈ lic'.machines, m.length ≤ 16) := by
  refine ⟨normMachine_length_le, ?_, ?_, ?_⟩
  · intro cfg s tok p ms h m hm
    by_cases hadm : requireAdmin cfg tok = false
    · rw [admin_upsert, if_pos hadm] at h
      exact absurd h (by simp)
    · rw [admin_upsert, if_neg hadm] at h
      simp only [Except.ok.injEq] at h
      subst h
      obtain ⟨y, _, rfl⟩ := List.mem_map.mp hm
      exact normMachine_length_le y
  · intro cfg s tok key mach ms h m hm
    by_cases hadm : requireAdmin cfg tok = false
    · rw [admin_remove_machine, if_pos hadm] at h
      exact absurd h (by simp)
    · rw [admin_remove_machine, if_neg hadm] at h
      cases hget : storeGet s key with
      | none =>
        rw [hget] at h
        exact absurd h (by simp)
      | some lic =>
        rw [hget] at h
        simp only [Except.ok.injEq] at h
        subst h
        obtain ⟨y, _, rfl⟩ := List.mem_map.mp (List.mem_of_mem_filter hm)
        exact normMachine_length_le y
  · intro cfg s p now k lic' hget
    rcases activate_cases cfg s p now with ⟨e, he⟩ | ⟨lic, _, _, _, _, _, hbr⟩
    · rw [he] at hget
      exact Or.inl hget
    · rcases hbr with ⟨_, he⟩ | ⟨_, _, he⟩
      · rw [he] at hget
        exact Or.inl hget
      · rw [he] at hget
        by_cases hk : k = p.key
        · subst hk
          rw [storeGet_storeSet_self] at hget
          cases hget
          refine Or.inr fun m hm => ?_
          rcases List.mem_append.mp hm with hm' | hm'
          · obtain ⟨y, _, rfl⟩ :=
              List.mem_map.mp ((mem_dedupFirst _).mp hm')
            exact normMachine_length_le y
          · rcases List.mem_singleton.mp hm' with rfl
            exact normMachine_length_le _
        · rw [storeGet_storeSet_ne _ _ hk] at hget
          exact Or.inl hget

/-- The record that activation on `wStore` writes: `wLic` with `fpHex` bound. -/
def wLicBound : License :=
  { active := true, plan := ("monthly"), expires_unix := 10, seats := 1,
    machines := [fpHex] }

/-- A one-seat record whose stored machine entry is un-normalized
(uppercase). -/
def licUpper : License :=
  { active := true, plan := ("monthly"), expires_unix := 1000, seats := 1,
    machines := [fpUpper] }

/-- A store holding `licUpper` under key `"K"`. -/
def storeUpper : Store := [(("K"), licUpper)]

/-- Upsert payload for key `"K"` with one seat. -/
def wUp : UpsertPayload :=
  { key := ("K"), active := true, plan := ("monthly"),
    expires_unix := 1000, seats := 1 }

/-- Witness for C10: each conjunct applied at a concrete input. -/
theorem C10_fingerprint_length_witness :
    (normMachine fpPatho).length ≤ 16 ∧
    ((admin_upsert wCfg storeUpper ("adm") wUp).1 = .ok [fpLower] ∧
      ∀ m ∈ [fpLower], List.length m ≤ 16) ∧
    ((admin_remove_machine wCfg storeUpper ("adm") ("K")
        (("zz").toList)).1 = .ok [fpLower] ∧
      ∀ m ∈ [fpLower], List.length m ≤ 16) ∧
    (storeGet (activate wCfg wStore wPay 0).2 ("K") = some wLicBound ∧
      (storeGet wStore ("K") = some wLicBound ∨
        ∀ m ∈ wLicBound.machines, List.length m ≤ 16)) :=
  ⟨C10_fingerprint_length.1 fpPatho,
   ⟨by decide,
    C10_fingerprint_length.2.1 wCfg storeUpper ("adm") wUp [fpLower]
      (by decide)⟩,
   ⟨by decide,
    C10_fingerprint_length.2.2.1 wCfg storeUpper ("adm") ("K")
      (("zz").toList) [fpLower] (by decide)⟩,
   ⟨by decide,
    C10_fingerprint_length.2.2.2 wCfg wStore wPay 0 ("K") wLicBound
      (by decide)⟩⟩

/-! ### Counterexample inputs -/

/-- An active two-seat license with two distinct canonical machines. -/
def licTwo : License :=
  { active := true, plan := ("monthly"), expires_unix := 1000, seats := 2,
    machines := [fpHex, fpHex2] }

/-- A store holding `licTwo` under key `"K"`. -/
def storeTwo : Store := [(("K"), licTwo)]

/-- A record whose two stored entries share one canonical form. -/
def licDup : License :=
  { active := true, plan := ("monthly"), expires_unix := 1000, seats := 2,
    machines := [fpUpper, fpLower] }

/-- A store holding `licDup` under key `"K"`. -/
def storeDup : Store := [(("K"), licDup)]

/-- Upsert payload for key `"K"` with two seats. -/
def wUp2 : UpsertPayload :=
  { key := ("K"), active := true, plan := ("monthly"),
    expires_unix := 1000, seats := 2 }

/-- Activation request from the already-canonical machine `fpLower`. -/
def pLow : ActivatePayload :=
  { key := ("K"), app := ("ark-watchdog"), machine := some fpLower,
    fingerprint := none }

/-- Activation request from the pathological machine string `fpPatho`. -/
def pPatho : ActivatePayload :=
  { key := ("K"), app := ("ark-watchdog"), machine := some fpPatho,
    fingerprint := none }

/-- Activation request with an absent key and a whitespace machine id. -/
def pBlank : ActivatePayload :=
  { key := ("absent-key"), app := ("ark-watchdog"),
    machine := some ((" ").toList), fingerprint := none }

/-! ### Counterexample theorems -/

/-- Counterexample to C1 as stated: a store satisfying
`len(machines) <= seats` on which `admin_upsert` (lowering `seats` to 1
while both machines are kept) produces a record with 2 machines and 1
seat. -/
theorem C1_counterexample :
    invStoreB storeTwo = true ∧
    (admin_upsert wCfg storeTwo ("adm") wUp).1 = .ok [fpHex, fpHex2] ∧
    storeGet (admin_upsert wCfg storeTwo ("adm") wUp).2 ("K") =
      some { active := true, plan := ("monthly"), expires_unix := 1000,
             seats := 1, machines := [fpHex, fpHex2] } ∧
    invStoreB (admin_upsert wCfg storeTwo ("adm") wUp).2 = false := by
  decide

/-- Counterexample to C2 as stated: with the key absent and the machine
id normalizing to empty, `activate` fails with `badMachineId`, not
`invalidKey` — the machine-id check runs before the key lookup. -/
theorem C2_counterexample :
    storeGet ([] : Store) ("absent-key") = none ∧
    normMachine (machineIn pBlank) = [] ∧
    activate wCfg [] pBlank 0 = (.error .badMachineId, ([] : Store)) ∧
    ActErr.badMachineId ≠ ActErr.invalidKey := by
  decide

/-- Counterexample to C3 as stated: normalization is not idempotent on
`"a"` + 15 spaces + `"b"`, whose normalized form ends in whitespace. -/
theorem C3_counterexample :
    normMachine (normMachine fpPatho) ≠ normMachine fpPatho := by
  decide

/-- Counterexample to C4 as stated: activation from an already-bound
machine succeeds without persisting, although renormalizing the stored
(uppercase) entry did change the record. -/
theorem C4_counterexample :
    (activate wCfg storeUpper pLow 0).1 =
      .ok { machine := fpLower, plan := ("monthly"), expires := 1000 } ∧
    (activate wCfg storeUpper pLow 0).2 = storeUpper ∧
    binderList licUpper ≠ licUpper.machines := by
  decide

/-- Counterexample to C5 as stated: after `admin_upsert` the stored list
keeps both copies of the one canonical fingerprint — entries are
renormalized but not de-duplicated. -/
theorem C5_counterexample :
    (admin_upsert wCfg storeDup ("adm") wUp2).1 = .ok [fpLower, fpLower] ∧
    storeGet (admin_upsert wCfg storeDup ("adm") wUp2).2 ("K") =
      some { active := true, plan := ("monthly"), expires_unix := 1000,
             seats := 2, machines := [fpLower, fpLower] } ∧
    ¬ List.Nodup [fpLower, fpLower] ∧
    [fpLower, fpLower] ≠ dedupFirst (licDup.machines.map normMachine) := by
  decide

/-- Counterexample to C7 as stated: on a fresh one-seat license the
first activation from `fpPatho` succeeds, and the immediate repetition
with the same key and machine fails with `seatLimit` (the stored entry
renormalizes away from the requested fingerprint). -/
theorem C7_counterexample :
    (activate wCfg wStore pPatho 0).1 =
      .ok { machine := 'a' :: List.replicate 15 ' ', plan := ("monthly"),
            expires := 10 } ∧
    (activate wCfg (activate wCfg wStore pPatho 0).2 pPatho 0).1 =
      .error .seatLimit := by
  decide

/-- Counterexample to C9 as stated: removal of an unmatched target
returns `ok` but rewrites the store — the surviving entry is
renormalized from `fpUpper` to `fpLower`. -/
theorem C9_counterexample :
    (licUpper.machines.map normMachine).all
      (fun m => m ≠ normMachine (("zz").toList)) = true ∧
    (admin_remove_machine wCfg storeUpper ("adm") ("K")
      (("zz").toList)).1 = .ok [fpLower] ∧
    (admin_remove_machine wCfg storeUpper ("adm") ("K")
      (("zz").toList)).2 ≠ storeUpper := by
  decide

/-! ### Claim C2 (amended) -/

/-- Claim C2 (amended): the failure checks run in the fixed order
app-id match, machine-id normalization, key lookup, active flag, license
expiry, seat binding — normalization precedes the key lookup, so a
request whose key is absent and whose machine id normalizes to empty
fails with `badMachineId`. -/
theorem C2_amended_check_order :
    (∀ (cfg : Config) (s : Store) (p : ActivatePayload) (now : Int),
      p.app ≠ cfg.appId →
      activate cfg s p now = (.error .appMismatch, s)) ∧
    (∀ (cfg : Config) (s : Store) (p : ActivatePayload) (now : Int),
      p.app = cfg.appId → nmachOf p = [] →
      activate cfg s p now = (.error .badMachineId, s)) ∧
    (∀ (cfg : Config) (s : Store) (p : ActivatePayload) (now : Int),
      p.app = cfg.appId → nmachOf p ≠ [] → storeGet s p.key = none →
      activate cfg s p now = (.error .invalidKey, s)) ∧
    (∀ (cfg : Config) (s : Store) (p : ActivatePayload) (now : Int)
       (lic : License),
      p.app = cfg.appId → nmachOf p ≠ [] → storeGet s p.key = some lic →
      lic.active = false →
      activate cfg s p now = (.error .inactive, s)) ∧
    (∀ (cfg : Config) (s : Store) (p : ActivatePayload) (now : Int)
       (lic : License),
      p.app = cfg.appId → nmachOf p ≠ [] → storeGet s p.key = some lic →
      lic.active = true → lic.expires_unix ≤ now →
      activate cfg s p now = (.error .expired, s)) ∧
    (∀ (cfg : Config) (s : Store) (p : ActivatePayload) (now : Int)
       (lic : License),
      p.app = cfg.appId → nmachOf p ≠ [] → storeGet s p.key = some lic →
      lic.active = true → now < lic.expires_unix →
      nmachOf p ∉ binderList lic →
      lic.seats ≤ ((binderList lic).length : Int) →
      activate cfg s p now = (.error .seatLimit, s)) :=
  ⟨fun _ _ _ _ h => activate_app_mismatch h,
   fun _ _ _ _ h1 h2 => activate_bad_machine h1 h2,
   fun _ _ _ _ h1 h2 h3 => activate_invalid_key h1 h2 h3,
   fun _ _ _ _ _ h1 h2 h3 h4 => activate_inactive h1 h2 h3 h4,
   fun _ _ _ _ _ h1 h2 h3 h4 h5 => activate_expired h1 h2 h3 h4 h5,
   fun _ _ _ _ _ h1 h2 h3 h4 h5 h6 h7 =>
     activate_seat_limit h1 h2 h3 h4 h5 h6 h7⟩

/-- Request with wrong application id. -/
def pOther : ActivatePayload :=
  { key := ("K"), app := ("other-app"), machine := some fpHex,
    fingerprint := none }

/-- Request for an absent key from a well-formed machine. -/
def pAbsent : ActivatePayload :=
  { key := ("absent-key"), app := ("ark-watchdog"), machine := some fpHex,
    fingerprint := none }

/-- Request for `"K"` from the second canonical machine. -/
def pHex2 : ActivatePayload :=
  { key := ("K"), app := ("ark-watchdog"), machine := some fpHex2,
    fingerprint := none }

/-- A deactivated license record and a store holding it. -/
def licInactive : License :=
  { active := false, plan := ("monthly"), expires_unix := 1000, seats := 1,
    machines := [] }

/-- Store holding `licInactive` under key `"K"`. -/
def storeInactive : Store := [(("K"), licInactive)]

/-- Witness for C2 (amended): each stage of the check order exercised at
a concrete input. -/
theorem C2_amended_check_order_witness :
    activate wCfg wStore pOther 0 = (.error .appMismatch, wStore) ∧
    activate wCfg wStore pBlank 0 = (.error .badMachineId, wStore) ∧
    activate wCfg wStore pAbsent 0 = (.error .invalidKey, wStore) ∧
    activate wCfg storeInactive wPay 0 = (.error .inactive, storeInactive) ∧
    activate wCfg wStore wPay 10 = (.error .expired, wStore) ∧
    activate wCfg storeUpper pHex2 0 = (.error .seatLimit, storeUpper) :=
  ⟨C2_amended_check_order.1 wCfg wStore pOther 0 (by decide),
   C2_amended_check_order.2.1 wCfg wStore pBlank 0 (by decide) (by decide),
   C2_amended_check_order.2.2.1 wCfg wStore pAbsent 0 (by decide)
     (by decide) (by decide),
   C2_amended_check_order.2.2.2.1 wCfg storeInactive wPay 0 licInactive
     (by decide) (by decide) (by decide) (by decide),
   C2_amended_check_order.2.2.2.2.1 wCfg wStore wPay 10 wLic (by decide)
     (by decide) (by decide) (by decide) (by decide),
   C2_amended_check_order.2.2.2.2.2 wCfg storeUpper pHex2 0 licUpper
     (by decide) (by decide) (by decide) (by decide) (by decide)
     (by decide) (by decide)⟩

/-! ### Claim C4 (amended) -/

/-- Claim C4 (amended): on a successful activation the record is
persisted exactly when a new machine is appended; when the requesting
fingerprint is already among the repaired (renormalized, de-duplicated)
entries the write is skipped, even if the repair changed the record. -/
theorem C4_amended_persist_iff_append (cfg : Config) (s : Store)
    (p : ActivatePayload) (now : Int) (lic : License) (r : ActOk)
    (hget : storeGet s p.key = some lic)
    (hok : (activate cfg s p now).1 = .ok r) :
    (nmachOf p ∈ binderList lic → (activate cfg s p now).2 = s) ∧
    (nmachOf p ∉ binderList lic → (activate cfg s p now).2 =
      storeSet s p.key
        { lic with machines := binderList lic ++ [nmachOf p] }) := by
  rcases activate_cases cfg s p now with ⟨e, he⟩ | ⟨lic', hget', _, _, _, _, hbr⟩
  · rw [he] at hok
    exact absurd hok (by simp)
  · rw [hget'] at hget
    cases hget
    rcases hbr with ⟨hmem, he⟩ | ⟨hmem, _, he⟩
    · exact ⟨fun _ => by rw [he], fun hn => absurd hmem hn⟩
    · exact ⟨fun hn => absurd hn hmem, fun _ => by rw [he]⟩

/-- Witness for C4 (amended): the skip side on a record that the repair
did change (uppercase entry, already-bound machine), and the persist
side on a fresh binding. -/
theorem C4_amended_persist_iff_append_witness :
    (activate wCfg storeUpper pLow 0).2 = storeUpper ∧
    (activate wCfg wStore wPay 0).2 =
      storeSet wStore (ActivatePayload.key wPay)
        { wLic with machines := binderList wLic ++ [nmachOf wPay] } :=
  ⟨(C4_amended_persist_iff_append wCfg storeUpper pLow 0 licUpper
      { machine := fpLower, plan := ("monthly"), expires := 1000 }
      (by decide) (by decide)).1 (by decide),
   (C4_amended_persist_iff_append wCfg wStore wPay 0 wLic
      { machine := fpHex, plan := ("monthly"), expires := 10 }
      (by decide) (by decide)).2 (by decide)⟩

/-! ### Claim C5 (amended) -/

/-- Claim C5 (amended): after `admin_upsert` on an existing key the
stored machines list is the previous list with every entry normalized —
duplicates are not removed, so duplicate canonical fingerprints can
remain. -/
theorem C5_amended_upsert_renormalizes (cfg : Config) (s : Store)
    (tok : String) (p : UpsertPayload) (lic : License)
    (hadm : requireAdmin cfg tok = true)
    (hget : storeGet s p.key = some lic) :
    (admin_upsert cfg s tok p).1 = .ok (lic.machines.map normMachine) ∧
    (admin_upsert cfg s tok p).2 = storeSet s p.key
      { active := p.active, plan := p.plan, expires_unix := p.expires_unix,
        seats := p.seats, machines := lic.machines.map normMachine } := by
  have hadm' : ¬ requireAdmin cfg tok = false := by simp [hadm]
  rw [admin_upsert, if_neg hadm', hget]
  exact ⟨rfl, rfl⟩

/-- Witness for C5 (amended) on the duplicate-bearing record `licDup`. -/
theorem C5_amended_upsert_renormalizes_witness :
    (admin_upsert wCfg storeDup ("adm") wUp2).1 =
      .ok (licDup.machines.map normMachine) ∧
    (admin_upsert wCfg storeDup ("adm") wUp2).2 =
      storeSet storeDup (UpsertPayload.key wUp2)
        { active := UpsertPayload.active wUp2, plan := UpsertPayload.plan wUp2,
          expires_unix := UpsertPayload.expires_unix wUp2,
          seats := UpsertPayload.seats wUp2,
          machines := licDup.machines.map normMachine } :=
  C5_amended_upsert_renormalizes wCfg storeDup ("adm") wUp2 licDup
    (by decide) (by decide)

/-! ### Claim C9 (amended) -/

/-- Claim C9 (amended): when the canonical form of no stored entry matches
the normalized removal target, `admin_remove_machine` succeeds and
removes no entry — but it writes back the renormalized list, so the
stored list is unchanged only when its entries were already canonical. -/
theorem C9_amended_remove_unmatched (cfg : Config) (s : Store)
    (tok key : String) (mach : Fp) (lic : License)
    (hadm : requireAdmin cfg tok = true)
    (hget : storeGet s key = some lic)
    (hnone : ∀ m ∈ lic.machines, normMachine m ≠ normMachine mach) :
    (admin_remove_machine cfg s tok key mach).1 =
      .ok (lic.machines.map normMachine) ∧
    (admin_remove_machine cfg s tok key mach).2 =
      storeSet s key { lic with machines := lic.machines.map normMachine } ∧
    (lic.machines.map normMachine).length = lic.machines.length ∧
    (lic.machines.map normMachine = lic.machines →
      (admin_remove_machine cfg s tok key mach).2 = s) := by
  have hadm' : ¬ requireAdmin cfg tok = false := by simp [hadm]
  have hfilter : (lic.machines.map normMachine).filter
      (fun m => m ≠ normMachine mach) = lic.machines.map normMachine := by
    refine List.filter_eq_self.mpr fun a ha => ?_
    obtain ⟨y, hy, rfl⟩ := List.mem_map.mp ha
    simpa using hnone y hy
  refine ⟨?_, ?_, List.length_map _ _, ?_⟩
  · rw [admin_remove_machine, if_neg hadm', hget]
    exact congrArg Except.ok hfilter
  · rw [admin_remove_machine, if_neg hadm', hget]
    exact congrArg (fun ms => storeSet s key { lic with machines := ms })
      hfilter
  · intro hid
    rw [admin_remove_machine, if_neg hadm', hget]
    have hrec :
        ({ lic with machines := List.filter (fun m => m ≠ normMachine mach) (List.map normMachine lic.machines) } : License) = lic := by
      rw [hfilter, hid]
    show storeSet s key _ = s
    rw [hrec]
    exact storeSet_eq_self hget

/-- Witness for C9 (amended) on `storeUpper` with unmatched target
`"zz"`. -/
theorem C9_amended_remove_unmatched_witness :
    (admin_remove_machine wCfg storeUpper ("adm") ("K")
        (("zz").toList)).1 = .ok (licUpper.machines.map normMachine) ∧
    (admin_remove_machine wCfg storeUpper ("adm") ("K")
        (("zz").toList)).2 =
      storeSet storeUpper ("K")
        { licUpper with machines := licUpper.machines.map normMachine } ∧
    (licUpper.machines.map normMachine).length =
      licUpper.machines.length ∧
    (licUpper.machines.map normMachine = licUpper.machines →
      (admin_remove_machine wCfg storeUpper ("adm") ("K")
        (("zz").toList)).2 = storeUpper) :=
  C9_amended_remove_unmatched wCfg storeUpper ("adm") ("K")
    (("zz").toList) licUpper (by decide) (by decide) (by decide)

/-! ### Lemmas for Claim C3 (amended) -/

theorem pyLower_fixed_of_mem_map {l : List Char} {c : Char}
    (h : c ∈ l.map pyLower) : pyLower c = c := by
  obtain ⟨y, _, rfl⟩ := List.mem_map.mp h
  exact pyLower_idem y

theorem map_pyLower_eq_self {l : List Char} (h : ∀ c ∈ l, pyLower c = c) :
    l.map pyLower = l := by
  conv_rhs => rw [(List.map_id l).symm]
  exact List.map_congr_left h

theorem all_take {p : Char → Bool} {l : List Char}
    (h : l.all p = true) (n : Nat) : (l.take n).all p = true :=
  List.all_eq_true.mpr fun c hc =>
    List.all_eq_true.mp h c (List.Sublist.mem hc (List.take_sublist n l))

theorem all_filter_self (p : Char → Bool) (l : List Char) :
    (l.filter p).all p = true :=
  List.all_eq_true.mpr fun _ hc => List.of_mem_filter hc

/-- The first branch of `_norm_machine`: the cleaned input fullmatches
`[0-9a-f]{16,}`. -/
theorem normMachine_eq_A {x : Fp}
    (h : ((pyStrip x).map pyLower).all isHexLower = true)
    (hlen : 16 ≤ ((pyStrip x).map pyLower).length) :
    normMachine x = ((pyStrip x).map pyLower).take 16 := by
  unfold normMachine
  dsimp only
  rw [if_pos ⟨h, hlen⟩]

/-- The second branch of `_norm_machine`: at least 16 hex characters
survive the non-hex strip. -/
theorem normMachine_eq_B {x : Fp}
    (h : ¬ (((pyStrip x).map pyLower).all isHexLower = true ∧
      16 ≤ ((pyStrip x).map pyLower).length))
    (h2 : 16 ≤ (((pyStrip x).map pyLower).filter isHexLower).length) :
    normMachine x = (((pyStrip x).map pyLower).filter isHexLower).take 16 := by
  unfold normMachine
  dsimp only
  rw [if_neg h, if_pos h2]

/-- The fallback branch of `_norm_machine`: fewer than 16 hex characters
available. -/
theorem normMachine_eq_C {x : Fp}
    (h : ¬ (((pyStrip x).map pyLower).all isHexLower = true ∧
      16 ≤ ((pyStrip x).map pyLower).length))
    (h2 : ¬ 16 ≤ (((pyStrip x).map pyLower).filter isHexLower).length) :
    normMachine x = ((pyStrip x).map pyLower).take 16 := by
  unfold normMachine
  dsimp only
  rw [if_neg h, if_neg h2]

/-- A 16-character all-hex string is a fixpoint of the normalizer and of
stripping. -/
theorem normMachine_of_hex16 {l : Fp} (hall : l.all isHexLower = true)
    (hlen : l.length = 16) : normMachine l = l ∧ pyStrip l = l := by
  have hnos : ∀ c ∈ l, isPySpace c = false := fun c hc =>
    not_isPySpace_of_isHexLower (List.all_eq_true.mp hall c hc)
  have hstrip : pyStrip l = l := pyStrip_eq_self_of_no_space hnos
  have hlow : l.map pyLower = l := map_pyLower_eq_self fun c hc =>
    pyLower_of_isHexLower (List.all_eq_true.mp hall c hc)
  refine ⟨?_, hstrip⟩
  rw [normMachine_eq_A (by rw [hstrip, hlow]; exact hall)
    (by rw [hstrip, hlow]; omega), hstrip, hlow]
  exact List.take_of_length_le (by omega)

/-! ### Claim C3 (amended) -/

/-- Claim C3 (amended): applying the normalizer twice equals stripping
its single application: `normalize (normalize x) = strip (normalize x)`
for every string `x`.  So normalization is idempotent exactly on inputs
whose normalized form carries no surrounding whitespace — every 16-hex
fingerprint in particular — but not on every string, since the
16-character truncation of the fallback can end mid-whitespace. -/
theorem C3_amended_norm_norm (x : Fp) :
    normMachine (normMachine x) = pyStrip (normMachine x) := by
  by_cases hA : ((pyStrip x).map pyLower).all isHexLower = true ∧
      16 ≤ ((pyStrip x).map pyLower).length
  · rw [normMachine_eq_A hA.1 hA.2]
    have hall : (((pyStrip x).map pyLower).take 16).all isHexLower = true :=
      all_take hA.1 16
    have hlen : (((pyStrip x).map pyLower).take 16).length = 16 := by
      rw [List.length_take]
      omega
    obtain ⟨h1, h2⟩ := normMachine_of_hex16 hall hlen
    rw [h1, h2]
  · by_cases hB : 16 ≤ (((pyStrip x).map pyLower).filter isHexLower).length
    · rw [normMachine_eq_B hA hB]
      have hall : ((((pyStrip x).map pyLower).filter isHexLower).take 16).all
          isHexLower = true := all_take (all_filter_self _ _) 16
      have hlen : ((((pyStrip x).map pyLower).filter
          isHexLower).take 16).length = 16 := by
        rw [List.length_take]
        omega
      obtain ⟨h1, h2⟩ := normMachine_of_hex16 hall hlen
      rw [h1, h2]
    · rw [normMachine_eq_C hA hB]
      set out := ((pyStrip x).map pyLower).take 16 with hout
      have hfixout : ∀ c ∈ out, pyLower c = c := fun c hc =>
        pyLower_fixed_of_mem_map
          (List.Sublist.mem hc (List.take_sublist 16 _))
      have hstripfix : ∀ c ∈ pyStrip out, pyLower c = c :=
        fun c hc => hfixout c (mem_of_mem_pyStrip hc)
      have hmap2 : (pyStrip out).map pyLower = pyStrip out :=
        map_pyLower_eq_self hstripfix
      have hhex1 : (out.filter isHexLower).length < 16 := by
        have hsub : (out.filter isHexLower).Sublist
            (((pyStrip x).map pyLower).filter isHexLower) :=
          List.Sublist.filter isHexLower (List.take_sublist 16 _)
        have hle := hsub.length_le
        omega
      have hhex2 : ((pyStrip out).filter isHexLower).length < 16 := by
        have hsub : ((pyStrip out).filter isHexLower).Sublist
            (out.filter isHexLower) :=
          List.Sublist.filter isHexLower (pyStrip_sublist _)
        have hle := hsub.length_le
        omega
      have hnotA : ¬ (((pyStrip out).map pyLower).all isHexLower = true ∧
          16 ≤ ((pyStrip out).map pyLower).length) := by
        rintro ⟨hall, hlen⟩
        rw [hmap2] at hall hlen
        have heq : (pyStrip out).filter isHexLower = pyStrip out :=
          List.filter_eq_self.mpr (List.all_eq_true.mp hall)
        rw [heq] at hhex2
        omega
      have hnotB :
          ¬ 16 ≤ (((pyStrip out).map pyLower).filter isHexLower).length := by
        rw [hmap2]
        omega
      rw [normMachine_eq_C hnotA hnotB, hmap2]
      apply List.take_of_length_le
      have h1 : (pyStrip out).length ≤ out.length :=
        (pyStrip_sublist _).length_le
      have h2 : out.length ≤ 16 := by
        rw [hout]
        exact List.length_take_le _ _
      omega

/-! ### Claim C1 (amended) -/

/-- Claim C1 (amended): activation and admin machine removal preserve
the store-wide invariant `len(machines) <= seats` (activation guarantees
it outright for any record it writes); admin upsert preserves it only
when the new `seats` is at least the length of the existing machines
list, because it keeps the renormalized list while replacing `seats`
wholesale. -/
theorem C1_amended_seat_invariant (cfg : Config) (s : Store)
    (hs : invStoreB s = true) :
    (∀ (p : ActivatePayload) (now : Int),
      invStoreB (activate cfg s p now).2 = true) ∧
    (∀ (tok key : String) (mach : Fp),
      invStoreB (admin_remove_machine cfg s tok key mach).2 = true) ∧
    (∀ (tok : String) (p : UpsertPayload), 0 ≤ p.seats →
      (∀ lic, storeGet s p.key = some lic →
        (lic.machines.length : Int) ≤ p.seats) →
      invStoreB (admin_upsert cfg s tok p).2 = true) := by
  refine ⟨?_, ?_, ?_⟩
  · intro p now
    rcases activate_cases cfg s p now with ⟨e, he⟩ |
      ⟨lic, hget, _, _, _, _, hbr⟩
    · rw [he]
      exact hs
    · rcases hbr with ⟨_, he⟩ | ⟨_, hseat, he⟩
      · rw [he]
        exact hs
      · rw [he]
        apply invStoreB_storeSet hs
        simp only [licOK, List.length_append, List.length_singleton,
          decide_eq_true_eq]
        push_cast
        omega
  · intro tok key mach
    by_cases hadm : requireAdmin cfg tok = false
    · rw [admin_remove_machine, if_pos hadm]
      exact hs
    · rw [admin_remove_machine, if_neg hadm]
      cases hget : storeGet s key with
      | none => exact hs
      | some lic =>
        apply invStoreB_storeSet hs
        have hlic := licOK_of_invStoreB hs hget
        simp only [licOK, decide_eq_true_eq] at hlic ⊢
        have h1 : (List.filter (fun m => m ≠ normMachine mach)
            (lic.machines.map normMachine)).length ≤ lic.machines.length := by
          calc (List.filter (fun m => m ≠ normMachine mach)
              (lic.machines.map normMachine)).length
              ≤ (lic.machines.map normMachine).length :=
                List.length_filter_le _ _
            _ = lic.machines.length := List.length_map _ _
        omega
  · intro tok p hpos hlen
    by_cases hadm : requireAdmin cfg tok = false
    · rw [admin_upsert, if_pos hadm]
      exact hs
    · rw [admin_upsert, if_neg hadm]
      cases hget : storeGet s p.key with
      | none =>
        apply invStoreB_storeSet hs
        simp only [licOK, List.length_map, List.length_nil,
          decide_eq_true_eq]
        exact_mod_cast hpos
      | some lic =>
        apply invStoreB_storeSet hs
        have h1 := hlen lic hget
        simp only [licOK, List.length_map, decide_eq_true_eq]
        exact h1

/-- Witness for C1 (amended) on `storeTwo` (two machines, two seats). -/
theorem C1_amended_seat_invariant_witness :
    invStoreB storeTwo = true ∧
    invStoreB (activate wCfg storeTwo wPay 0).2 = true ∧
    invStoreB (admin_remove_machine wCfg storeTwo ("adm") ("K")
      (("zz").toList)).2 = true ∧
    invStoreB (admin_upsert wCfg storeTwo ("adm") wUp2).2 = true :=
  ⟨by decide,
   (C1_amended_seat_invariant wCfg storeTwo (by decide)).1 wPay 0,
   (C1_amended_seat_invariant wCfg storeTwo (by decide)).2.1 ("adm") ("K")
     (("zz").toList),
   (C1_amended_seat_invariant wCfg storeTwo (by decide)).2.2 ("adm") wUp2
     (by decide)
     (fun lic h => by
       have h3 : storeGet storeTwo (UpsertPayload.key wUp2) = some licTwo :=
         by decide
       rw [h3] at h
       injection h with h4
       subst h4
       decide)⟩

/-! ### Claim C7 (amended) -/

/-- Claim C7 (amended): activation is idempotent per (key, machine)
provided the fingerprint of the requested machine is canonical — `normMachine`
fixes it, which holds whenever the normalized form has no surrounding
whitespace, and in particular for every full 16-hex fingerprint.  Then a
successful activation immediately repeated succeeds with the same
response body and leaves the store exactly as the first call left it
(so the machines list does not grow), even with `seats = 1`. -/
theorem C7_amended_idempotent (cfg : Config) (s : Store)
    (p : ActivatePayload) (now : Int) (r : ActOk)
    (hcanon : normMachine (nmachOf p) = nmachOf p)
    (hok : (activate cfg s p now).1 = .ok r) :
    activate cfg (activate cfg s p now).2 p now =
      (.ok r, (activate cfg s p now).2) := by
  rcases activate_cases cfg s p now with ⟨e, he⟩ |
    ⟨lic, hget, hact, hexp, happ, hnm, hbr⟩
  · rw [he] at hok
    exact absurd hok (by simp)
  · rcases hbr with ⟨hmem, he⟩ | ⟨hmem, hseat, he⟩
    · have hres : actResult cfg p lic now = r := by
        rw [he] at hok
        simpa using hok
      rw [he]
      show activate cfg s p now = (.ok r, s)
      rw [he, hres]
    · have hres : actResult cfg p lic now = r := by
        rw [he] at hok
        simpa using hok
      have hget' : storeGet
          (storeSet s p.key
            { lic with machines := binderList lic ++ [nmachOf p] }) p.key =
          some { lic with machines := binderList lic ++ [nmachOf p] } :=
        storeGet_storeSet_self s p.key _
      have hmem' : nmachOf p ∈
          binderList { lic with machines := binderList lic ++ [nmachOf p] } := by
        rw [binderList, mem_dedupFirst]
        refine List.mem_map.mpr ⟨nmachOf p, ?_, hcanon⟩
        show nmachOf p ∈ binderList lic ++ [nmachOf p]
        exact List.mem_append.mpr (Or.inr (List.mem_singleton.mpr rfl))
      have h2 := activate_already_bound happ hnm hget' hact hexp hmem'
      rw [he]
      show activate cfg
          (storeSet s p.key
            { lic with machines := binderList lic ++ [nmachOf p] }) p now =
        (.ok r, storeSet s p.key
          { lic with machines := binderList lic ++ [nmachOf p] })
      rw [h2]
      exact congrArg
        (fun a => (Except.ok a, storeSet s p.key
          { lic with machines := binderList lic ++ [nmachOf p] })) hres

/-- Witness for C7 (amended): a fresh one-seat license activated twice
from the canonical fingerprint `fpHex`; the second call returns the same
token body and the store stays as after the first call. -/
theorem C7_amended_idempotent_witness :
    (activate wCfg wStore wPay 0).1 =
      .ok { machine := fpHex, plan := ("monthly"), expires := 10 } ∧
    activate wCfg (activate wCfg wStore wPay 0).2 wPay 0 =
      (.ok { machine := fpHex, plan := ("monthly"), expires := 10 },
        (activate wCfg wStore wPay 0).2) :=
  ⟨by decide,
   C7_amended_idempotent wCfg wStore wPay 0
     { machine := fpHex, plan := ("monthly"), expires := 10 }
     (by decide) (by decide)⟩

end ArkLicense
